import Mathlib

/-!
# Verification of the pathfinding token-network core

A shallow embedding of `src/pathfinding_service/model/token_network.py`
(class `TokenNetwork`): the channel graph, its event handlers and the
constrained diverse path search `get_paths`, together with proofs about the
behaviour claimed by the specification.

Python conventions are modelled as follows: machine integers are `Int`,
Python floats used for weights/penalties are `ℚ`, Python dicts are
association lists with insert-or-replace semantics, and code that can raise
an exception returns `Except PyErr _`.
-/

attribute [local semireducible] Rat.add

/-- Exceptions that the embedded code can raise, mirroring the Python / library
exception classes that are relevant to `token_network.py`. -/
inductive PyErr where
  | keyError
  | assertionError
  | zeroDivisionError
  | nodeNotFound
  | networkXNoPath
  | networkXError
deriving DecidableEq, Repr

/-- A participant address.  `eth_utils.is_checksum_address` (an external
dependency, not part of the repository) is modelled by carrying an explicit
well-formedness flag: `checksummed` is `true` exactly for the strings that the
real predicate accepts.  Address identity is abstracted to a natural number. -/
structure Address where
  ident : Nat
  checksummed : Bool
deriving DecidableEq, Repr

/-- Modelled from the spec: validation of the EIP-55 checksum format performed
by `eth_utils.is_checksum_address`; on the abstract address type it reads the
well-formedness flag. -/
def is_checksum_address (a : Address) : Bool :=
  a.checksummed

/-! ## Association lists (Python `dict` / networkx adjacency) -/

/-- First value stored under key `k`, like Python `d[k]` /
`d.get(k)`. -/
def alookup [DecidableEq κ] : List (κ × β) → κ → Option β
  | [], _ => none
  | (a, b) :: rest, k => if a = k then some b else alookup rest k

/-- Insert-or-replace, like Python `d[k] = f(old)`: the first binding of `k`
is replaced in place (`f (some old)`), otherwise `(k, f none)` is appended,
matching dict insertion-order semantics. -/
def aupsert [DecidableEq κ] : List (κ × β) → κ → (Option β → β) → List (κ × β)
  | [], k, f => [(k, f none)]
  | (a, b) :: rest, k, f =>
    if a = k then (k, f (some b)) :: rest else (a, b) :: aupsert rest k f

/-- Remove the first binding of `k`, like Python `d.pop(k)` after a successful
lookup. -/
def aerase [DecidableEq κ] : List (κ × β) → κ → List (κ × β)
  | [], _ => []
  | (a, b) :: rest, k => if a = k then rest else (a, b) :: aerase rest k

theorem alookup_aupsert [DecidableEq κ] (m : List (κ × β)) (k : κ) (f : Option β → β) (k' : κ) :
    alookup (aupsert m k f) k' =
      if k' = k then some (f (alookup m k)) else alookup m k' := by
  induction m with
  | nil =>
    by_cases h : k' = k
    · subst h
      simp [aupsert, alookup]
    · simp only [aupsert, alookup, if_neg h, if_neg (fun hh : k = k' => h hh.symm)]
  | cons hd tl ih =>
    obtain ⟨a, b⟩ := hd
    by_cases hak : a = k <;> by_cases hk : k' = k <;> by_cases hak' : a = k' <;>
      simp_all [aupsert, alookup]

theorem alookup_aerase_ne [DecidableEq κ] (m : List (κ × β)) (k k' : κ) (h : k' ≠ k) :
    alookup (aerase m k) k' = alookup m k' := by
  induction m with
  | nil => simp [aerase]
  | cons hd tl ih =>
    obtain ⟨a, b⟩ := hd
    by_cases hak : a = k <;> by_cases hak' : a = k' <;>
      simp_all [aerase, alookup]

theorem alookup_eq_none_iff [DecidableEq κ] (m : List (κ × β)) (k : κ) :
    alookup m k = none ↔ ¬ k ∈ m.map Prod.fst := by
  induction m with
  | nil => simp [alookup]
  | cons hd tl ih =>
    obtain ⟨a, b⟩ := hd
    by_cases hak : a = k <;> simp_all [alookup, eq_comm]

theorem mem_keys_aupsert [DecidableEq κ] (m : List (κ × β)) (k : κ) (f : Option β → β)
    (k' : κ) :
    k' ∈ (aupsert m k f).map Prod.fst ↔ k' ∈ m.map Prod.fst ∨ k' = k := by
  induction m with
  | nil => simp [aupsert]
  | cons hd tl ih =>
    obtain ⟨a, b⟩ := hd
    by_cases hak : a = k <;> simp_all [aupsert] <;> tauto

theorem mem_keys_aerase [DecidableEq κ] (m : List (κ × β)) (k k' : κ)
    (h : k' ∈ (aerase m k).map Prod.fst) : k' ∈ m.map Prod.fst := by
  induction m with
  | nil => simpa [aerase] using h
  | cons hd tl ih =>
    obtain ⟨a, b⟩ := hd
    by_cases hak : a = k <;> simp_all [aerase] <;> tauto

theorem alookup_aerase_self [DecidableEq κ] (m : List (κ × β)) (k : κ)
    (h : (m.map Prod.fst).Nodup) : alookup (aerase m k) k = none := by
  induction m with
  | nil => simp [aerase, alookup]
  | cons hd tl ih =>
    obtain ⟨a, b⟩ := hd
    simp only [List.map_cons, List.nodup_cons] at h
    by_cases hak : a = k
    · subst hak
      simpa [aerase, alookup_eq_none_iff] using h.1
    · simp [aerase, alookup, hak, ih h.2]

theorem nodup_keys_aupsert [DecidableEq κ] (m : List (κ × β)) (k : κ) (f : Option β → β)
    (h : (m.map Prod.fst).Nodup) : ((aupsert m k f).map Prod.fst).Nodup := by
  induction m with
  | nil => simp [aupsert]
  | cons hd tl ih =>
    obtain ⟨a, b⟩ := hd
    simp only [List.map_cons, List.nodup_cons] at h
    by_cases hak : a = k
    · subst hak
      have hrw : aupsert ((a, b) :: tl) a f = (a, f (some b)) :: tl := by simp [aupsert]
      rw [hrw]
      simp only [List.map_cons, List.nodup_cons]
      exact ⟨h.1, h.2⟩
    · simp only [aupsert, if_neg hak, List.map_cons, List.nodup_cons]
      refine ⟨?_, ih h.2⟩
      intro hmem
      rcases (mem_keys_aupsert tl k f a).mp hmem with hmem | hmem
      · exact h.1 hmem
      · exact hak hmem

theorem nodup_keys_aerase [DecidableEq κ] (m : List (κ × β)) (k : κ)
    (h : (m.map Prod.fst).Nodup) : ((aerase m k).map Prod.fst).Nodup := by
  induction m with
  | nil => simpa [aerase] using h
  | cons hd tl ih =>
    obtain ⟨a, b⟩ := hd
    simp only [List.map_cons, List.nodup_cons] at h
    by_cases hak : a = k
    · simpa [aerase, hak] using h.2
    · simp only [aerase, if_neg hak, List.map_cons, List.nodup_cons]
      exact ⟨fun hmem => h.1 (mem_keys_aerase tl k a hmem), ih h.2⟩

theorem alookup_map_val [DecidableEq κ] (m : List (κ × β)) (f : β → γ) (k : κ) :
    alookup (m.map (fun e => (e.1, f e.2))) k = (alookup m k).map f := by
  induction m with
  | nil => simp [alookup]
  | cons hd tl ih =>
    obtain ⟨a, b⟩ := hd
    by_cases hak : a = k <;> simp [alookup, hak, ih]

/-! ## Channel views and configuration constants

`ChannelView` and the configuration constants live in repository files that
are not included under `src/` (`pathfinding_service/model/channel_view.py`
and `pathfinding_service/config.py`); they are modelled from the spec. -/

/-- Modelled from the spec: the fixed minimum admissible value of
`settle_timeout / reveal_timeout`, the configuration constant
`DEFAULT_SETTLE_TO_REVEAL_TIMEOUT` minimum used by the feasibility check
(the spec fixes no numeric value; `2` is used as the representative fixed
constant). -/
def MIN_SETTLE_TO_REVEAL : ℚ := 2

/-- Modelled from the spec: the fixed system maximum that `max_paths` is
silently clamped to (`MAX_PATHS_PER_REQUEST` in the configuration; the spec
fixes no numeric value, `25` is used as the representative fixed constant). -/
def MAX_PATHS_PER_REQUEST : Int := 25

/-- Modelled from the spec: the default diversity penalty
(`DIVERSITY_PEN_DEFAULT` in the configuration). -/
def DIVERSITY_PEN_DEFAULT : ℚ := 5

/-- Modelled from the spec: the initial reveal timeout a channel view carries
before any balance update supplies one (a positive configuration constant). -/
def DEFAULT_REVEAL_TIMEOUT : Int := 30

/-- Modelled from the spec: per-direction state of one channel edge
(`pathfinding_service/model/channel_view.py`, not included under `src/`):
capacity, deposit, nonce, fee and timeouts, identified by the channel id
shared by both directions. -/
structure ChannelView where
  channel_id : Nat
  participant1 : Address
  participant2 : Address
  deposit : Int
  capacity : Int
  nonce : Int
  settle_timeout : Int
  reveal_timeout : Int
  relative_fee : Int
deriving DecidableEq, Repr

/-- Modelled from the spec: `ChannelView.update_capacity` applies whichever of
`nonce`, `capacity`, `deposit`, `reveal_timeout` are supplied; a supplied
`deposit` is a new total deposit that replaces the capacity baseline (the
capacity shifts by the change in total deposit). Arguments are positional:
nonce, capacity, deposit, reveal_timeout. -/
def ChannelView.update_capacity (cv : ChannelView) (nonce capacity deposit reveal_timeout : Option Int) :
    ChannelView :=
  let cv1 := match nonce with
    | some n => { cv with nonce := n }
    | none => cv
  let cv2 := match capacity with
    | some c => { cv1 with capacity := c }
    | none => cv1
  let cv3 := match deposit with
    | some d => { cv2 with capacity := cv2.capacity + (d - cv2.deposit), deposit := d }
    | none => cv2
  match reveal_timeout with
    | some r => { cv3 with reveal_timeout := r }
    | none => cv3

/-- The channel view created by `handle_channel_opened_event` (deposit `0`).
The source passes `participant1=participant1, participant2=participant2` for
both direction views (lines 54-68 of `token_network.py`), so both views are
built from the same arguments. -/
def initView (cid : Nat) (p1 p2 : Address) (settle : Int) : ChannelView :=
  { channel_id := cid
    participant1 := p1
    participant2 := p2
    deposit := 0
    capacity := 0
    nonce := 0
    settle_timeout := settle
    reveal_timeout := DEFAULT_REVEAL_TIMEOUT
    relative_fee := 0 }

/-! ## The directed channel graph (networkx `DiGraph`) -/

/-- Attributes stored on one directed edge: the mandatory `view` attribute and
the optional `weight` attribute, which exists only once `get_paths` has set
it. -/
structure EdgeData where
  view : ChannelView
  weight : Option ℚ
deriving DecidableEq, Repr

/-- A networkx `DiGraph`: node list (insertion order) and directed edges keyed
by ordered node pair (insertion order), each carrying an attribute record.
Nodes persist after their incident edges are removed, as in networkx. -/
structure Graph where
  nodes : List Address
  edges : List ((Address × Address) × EdgeData)
deriving DecidableEq, Repr

/-- Add a node if absent (`DiGraph.add_edge` adds endpoints implicitly). -/
def Graph.addNode (g : Graph) (a : Address) : Graph :=
  if a ∈ g.nodes then g else { g with nodes := g.nodes ++ [a] }

/-- `DiGraph.add_edge(u, v, view=cv)`: insert endpoints, then merge the
attribute `view` into the edge's attribute record; an existing `weight`
attribute survives, a fresh edge starts without one. -/
def Graph.add_edge (g : Graph) (u v : Address) (cv : ChannelView) : Graph :=
  let g1 := (g.addNode u).addNode v
  { g1 with
    edges := aupsert g1.edges (u, v)
      (fun old => match old with
        | some ed => { ed with view := cv }
        | none => { view := cv, weight := none }) }

/-- Edge attribute lookup `G[u][v]`. -/
def Graph.getEdge (g : Graph) (u v : Address) : Option EdgeData :=
  alookup g.edges (u, v)

/-- Replace the attribute record of an existing edge (in-place mutation of
`G[u][v][...]` in the source). -/
def Graph.setEdgeData (g : Graph) (u v : Address) (ed : EdgeData) : Graph :=
  { g with edges := aupsert g.edges (u, v) (fun _ => ed) }

/-- `DiGraph.remove_edge(u, v)` for an edge known to exist; nodes remain. -/
def Graph.eraseEdge (g : Graph) (u v : Address) : Graph :=
  { g with edges := aerase g.edges (u, v) }

/-! ## The token network and its event handlers -/

/-- `TokenNetwork.__init__`: the channel-id map, the graph and the bookkeeping
fields of `token_network.py` lines 22-29. -/
structure TokenNetwork where
  address : Address
  token_address : Address
  channel_id_to_addresses : List (Nat × (Address × Address))
  G : Graph
  max_relative_fee : Int
deriving DecidableEq, Repr

/-- A fresh `TokenNetwork(token_network_address, token_address)`. -/
def initTN (a ta : Address) : TokenNetwork :=
  { address := a
    token_address := ta
    channel_id_to_addresses := []
    G := { nodes := [], edges := [] }
    max_relative_fee := 0 }

/-- `TokenNetwork.handle_channel_opened_event` (lines 38-71): assert both
addresses are checksummed, record the id-to-participants mapping and add both
directed edges with fresh views. -/
def handle_channel_opened_event (tn : TokenNetwork) (channel_identifier : Nat)
    (participant1 participant2 : Address) (settle_timeout : Int) :
    Except PyErr TokenNetwork :=
  if is_checksum_address participant1 then
    if is_checksum_address participant2 then
      .ok { tn with
        channel_id_to_addresses :=
          aupsert tn.channel_id_to_addresses channel_identifier
            (fun _ => (participant1, participant2))
        G := ((tn.G.add_edge participant1 participant2
                (initView channel_identifier participant1 participant2 settle_timeout)).add_edge
              participant2 participant1
                (initView channel_identifier participant1 participant2 settle_timeout)) }
    else .error .assertionError
  else .error .assertionError

/-- `TokenNetwork.handle_channel_new_deposit_event` (lines 73-100): assert the
receiver address is checksummed; look the channel up, apply the new total
deposit to the matching direction's view; an unknown channel id (`KeyError`,
including a missing edge) or a receiver matching neither participant is
logged and dropped. -/
def handle_channel_new_deposit_event (tn : TokenNetwork) (channel_identifier : Nat)
    (receiver : Address) (total_deposit : Int) : Except PyErr TokenNetwork :=
  if is_checksum_address receiver then
    .ok (match alookup tn.channel_id_to_addresses channel_identifier with
      | none => tn
      | some (participant1, participant2) =>
        if receiver = participant1 then
          match tn.G.getEdge participant1 participant2 with
          | none => tn
          | some ed =>
            let ed' : EdgeData :=
              { ed with view := ed.view.update_capacity none none (some total_deposit) none }
            { tn with G := tn.G.setEdgeData participant1 participant2 ed' }
        else if receiver = participant2 then
          match tn.G.getEdge participant2 participant1 with
          | none => tn
          | some ed =>
            let ed' : EdgeData :=
              { ed with view := ed.view.update_capacity none none (some total_deposit) none }
            { tn with G := tn.G.setEdgeData participant2 participant1 ed' }
        else tn)
  else .error .assertionError

/-- `TokenNetwork.handle_channel_closed_event` (lines 102-118): pop the
mapping entry and remove both directed edges; an unknown id is logged and
dropped (`KeyError` from `pop` is caught), while a missing edge makes
networkx raise `NetworkXError`, which the handler does not catch. -/
def handle_channel_closed_event (tn : TokenNetwork) (channel_identifier : Nat) :
    Except PyErr TokenNetwork :=
  match alookup tn.channel_id_to_addresses channel_identifier with
  | none => .ok tn
  | some (participant1, participant2) =>
    let tn1 := { tn with
      channel_id_to_addresses := aerase tn.channel_id_to_addresses channel_identifier }
    match tn1.G.getEdge participant1 participant2 with
    | none => .error .networkXError
    | some _ =>
      let g1 := tn1.G.eraseEdge participant1 participant2
      match g1.getEdge participant2 participant1 with
      | none => .error .networkXError
      | some _ => .ok { tn1 with G := g1.eraseEdge participant2 participant1 }

/-- `TokenNetwork.get_channel_views_for_partner` (lines 120-131): unguarded
lookups `G[updating][other]['view']` and `G[other][updating]['view']`; a
missing node or edge raises `KeyError`. -/
def get_channel_views_for_partner (tn : TokenNetwork) (channel_identifier : Nat)
    (updating_participant other_participant : Address) :
    Except PyErr (ChannelView × ChannelView) :=
  match tn.G.getEdge updating_participant other_participant with
  | none => .error .keyError
  | some ed1 =>
    match tn.G.getEdge other_participant updating_participant with
    | none => .error .keyError
    | some ed2 => .ok (ed1.view, ed2.view)

/-- `TokenNetwork.handle_channel_balance_update_message` (lines 133-159):
fetch the two views exactly as `get_channel_views_for_partner` does (so a
missing edge raises the same `KeyError`) and apply the updating side's nonce,
capacity and reveal timeout to the outgoing view and the other side's nonce
and capacity to the reverse view. -/
def handle_channel_balance_update_message (tn : TokenNetwork) (channel_identifier : Nat)
    (updating_participant other_participant : Address)
    (updating_nonce other_nonce updating_capacity other_capacity reveal_timeout : Int) :
    Except PyErr TokenNetwork :=
  match tn.G.getEdge updating_participant other_participant,
        tn.G.getEdge other_participant updating_participant with
  | some ed1, some _ =>
    let v1 := ed1.view.update_capacity (some updating_nonce)
      (some updating_capacity) none (some reveal_timeout)
    let g1 := tn.G.setEdgeData updating_participant other_participant { ed1 with view := v1 }
    match g1.getEdge other_participant updating_participant with
    | some ed2 =>
      let v2 := ed2.view.update_capacity (some other_nonce) (some other_capacity) none none
      .ok { tn with G := g1.setEdgeData other_participant updating_participant { ed2 with view := v2 } }
    | none => .error .keyError
  | _, _ => .error .keyError

/-! ## The path search engine (`get_paths` and its helpers) -/

/-- `TokenNetwork.edge_weight` (lines 161-170): `1` plus the diversity penalty
already accumulated for the channel id of the edge's view (`0` if the channel
is unvisited). -/
def edge_weight (visited : List (Nat × ℚ)) (attr : EdgeData) : ℚ :=
  1 + ((alookup visited attr.view.channel_id).getD 0)

/-- The re-weight pass at the top of each `get_paths` iteration (lines
205-207): set the `weight` attribute of every edge from `edge_weight`. -/
def reweightGraph (g : Graph) (visited : List (Nat × ℚ)) : Graph :=
  { g with edges := g.edges.map (fun e => (e.1, { e.2 with weight := some (edge_weight visited e.2) })) }

/-- Consecutive node pairs of a path: `zip(path[:-1], path[1:])`. -/
def pairs (p : List α) : List (α × α) :=
  p.zip p.tail

/-- `TokenNetwork.check_path_constraints` (lines 172-186): walk the
consecutive pairs; reject when `value` exceeds the edge capacity or when
`settle_timeout / reveal_timeout` falls below the fixed minimum.  A missing
edge raises `KeyError` and a zero reveal timeout raises `ZeroDivisionError`,
mirroring Python's unguarded subscript and division. -/
def check_path_constraints (g : Graph) (value : Int) : List Address → Except PyErr Bool
  | u :: v :: rest =>
    match g.getEdge u v with
    | none => .error .keyError
    | some ed =>
      if value > ed.view.capacity then .ok false
      else if ed.view.reveal_timeout = 0 then .error .zeroDivisionError
      else if Rat.divInt ed.view.settle_timeout ed.view.reveal_timeout < MIN_SETTLE_TO_REVEAL
        then .ok false
      else check_path_constraints g value (v :: rest)
  | _ => .ok true

/-- Successors of `u` in edge-insertion order (networkx adjacency order). -/
def Graph.succList (g : Graph) (u : Address) : List Address :=
  g.edges.filterMap (fun e => if e.1.1 = u then some e.1.2 else none)

/-- All simple paths from `u` to `target`, by depth-first search over the
adjacency order, with fuel bounding the recursion depth.  A simple path ends
the first time `target` is reached and repeats no node. -/
def simplePathsFrom (g : Graph) (target : Address) : Nat → Address → List Address → List (List Address)
  | 0, _, _ => []
  | Nat.succ fuel, u, visitedNodes =>
    if u = target then [[u]]
    else
      ((g.succList u).filter (fun v => decide (¬ v ∈ u :: visitedNodes))).flatMap
        (fun v => (simplePathsFrom g target fuel v (u :: visitedNodes)).map (fun p => u :: p))

/-- All simple paths from `source` to `target`. -/
def simplePaths (g : Graph) (source target : Address) : List (List Address) :=
  simplePathsFrom g target (g.nodes.length + 1) source []

/-- Total weight of a path under the current `weight` attributes. -/
def pathWeight (g : Graph) (p : List Address) : ℚ :=
  (pairs p).foldl (fun acc uv => acc + (((alookup g.edges uv).bind (fun ed => ed.weight)).getD 0)) 0

/-- Stable insertion of a path into a list sorted by nondecreasing total
weight. -/
def insertByWeight (g : Graph) (p : List Address) : List (List Address) → List (List Address)
  | [] => [p]
  | q :: rest =>
    if pathWeight g p < pathWeight g q then p :: q :: rest
    else q :: insertByWeight g p rest

/-- Sort candidate paths by nondecreasing total weight (stable). -/
def sortByWeight (g : Graph) (ps : List (List Address)) : List (List Address) :=
  ps.foldr (insertByWeight g) []

/-- Modelled from the spec: the graph library's shortest-simple-paths
enumeration (`networkx.shortest_simple_paths`, an external dependency) used
at line 210.  It yields all simple paths from `source` to `target` in
nondecreasing total `weight` order; on the first request it raises
`NodeNotFound` when `source` or `target` is not a node of the graph and
`NetworkXNoPath` when no path exists.  The lazy generator is modelled as the
eagerly computed list of all candidates. -/
def shortest_simple_paths (g : Graph) (source target : Address) :
    Except PyErr (List (List Address)) :=
  if source ∈ g.nodes then
    if target ∈ g.nodes then
      let ps := sortByWeight g (simplePaths g source target)
      if ps.isEmpty then .error .networkXNoPath else .ok ps
    else .error .nodeNotFound
  else .error .nodeNotFound

/-- The candidate filter of lines 211-216: the first enumerated path that
passes `check_path_constraints` and is not already accepted; `none` models
the generator being exhausted (`StopIteration`).  Exceptions escaping the
constraint check propagate. -/
def selectPath (g : Graph) (value : Int) (accepted : List (List Address)) :
    List (List Address) → Except PyErr (Option (List Address))
  | [] => .ok none
  | c :: rest =>
    match check_path_constraints g value c with
    | .error e => .error e
    | .ok passed =>
      if passed then
        if c ∈ accepted then selectPath g value accepted rest
        else .ok (some c)
      else selectPath g value accepted rest

/-- The penalty update of lines 219-222: add the diversity penalty to the
accumulated penalty of the channel id of every traversed edge, in path
order. -/
def updateVisited (g : Graph) (penalty : ℚ) (visited : List (Nat × ℚ)) :
    List Address → List (Nat × ℚ)
  | u :: v :: rest =>
    let visited' := match g.getEdge u v with
      | some ed => aupsert visited ed.view.channel_id (fun o => o.getD 0 + penalty)
      | none => visited
    updateVisited g penalty visited' (v :: rest)
  | _ => visited

/-- The `for _ in range(max_paths)` loop of lines 203-226, with the remaining
iteration count as fuel: re-weight all edges, enumerate candidates, take the
first acceptable one (exhaustion breaks out of the loop), account its
channels in `visited` and continue. -/
def get_paths_loop (source target : Address) (value : Int) (penalty : ℚ) :
    Nat → Graph → List (Nat × ℚ) → List (List Address) →
    Except PyErr (Graph × List (List Address))
  | 0, g, _, paths => .ok (g, paths)
  | Nat.succ n, g, visited, paths =>
    let g' := reweightGraph g visited
    match shortest_simple_paths g' source target with
    | .error e => .error e
    | .ok cands =>
      match selectPath g' value paths cands with
      | .error e => .error e
      | .ok none => .ok (g', paths)
      | .ok (some p) =>
        get_paths_loop source target value penalty n g'
          (updateVisited g' penalty visited p) (paths ++ [p])

/-- The fee summation of lines 229-232: total `relative_fee` over the
traversed edges of one accepted path.  The source computes this into a local
`fee` variable during result assembly. -/
def path_fee_sum (g : Graph) (p : List Address) : Int :=
  (pairs p).foldl
    (fun acc uv => acc + (((alookup g.edges uv).map (fun ed => ed.view.relative_fee)).getD 0)) 0

/-- One entry of the `get_paths` result list: `dict(path=..., estimated_fee=...)`. -/
structure PathResult where
  path : List Address
  estimated_fee : Int
deriving DecidableEq, Repr

/-- `TokenNetwork.get_paths` (lines 188-238): assert `hop_bias == 1`, clamp
`max_paths` to the system maximum, run the search loop, then assemble the
result entries.  The source fills `estimated_fee` with the constant `0`
(line 236) even though it computes the fee sum.  The returned pair carries
the token network as left by the loop (its edge `weight` attributes are
mutated in place in the source). -/
def get_paths (tn : TokenNetwork) (source target : Address) (value : Int)
    (max_paths : Int) (diversity_penalty : ℚ) (hop_bias : ℚ) :
    Except PyErr (TokenNetwork × List PathResult) :=
  if hop_bias = 1 then
    match get_paths_loop source target value diversity_penalty
        (min max_paths MAX_PATHS_PER_REQUEST).toNat tn.G [] [] with
    | .error e => .error e
    | .ok (g', paths) =>
      .ok ({ tn with G := g' },
        paths.map (fun p => { path := p, estimated_fee := 0 }))
  else .error .assertionError

/-! ## Event sequences and reachability -/

/-- One call of a contract-event or message handler. -/
inductive Event where
  | opened (cid : Nat) (p1 p2 : Address) (settle : Int)
  | deposit (cid : Nat) (receiver : Address) (total : Int)
  | closed (cid : Nat)
  | balance (cid : Nat) (up other : Address) (un onn uc oc rt : Int)
deriving DecidableEq, Repr

/-- Dispatch one handler call. -/
def applyEvent (tn : TokenNetwork) : Event → Except PyErr TokenNetwork
  | .opened cid p1 p2 settle => handle_channel_opened_event tn cid p1 p2 settle
  | .deposit cid receiver total => handle_channel_new_deposit_event tn cid receiver total
  | .closed cid => handle_channel_closed_event tn cid
  | .balance cid up other un onn uc oc rt =>
    handle_channel_balance_update_message tn cid up other un onn uc oc rt

/-- Apply a sequence of handler calls, stopping at the first exception. -/
def applyEvents (tn : TokenNetwork) : List Event → Except PyErr TokenNetwork
  | [] => .ok tn
  | e :: rest =>
    match applyEvent tn e with
    | .error err => .error err
    | .ok tn' => applyEvents tn' rest

/-- The delivery discipline the upstream event feed is expected to obey for
open events (exactly-once per channel identifier, distinct participants, no
second live channel on the same participant pair); all other handler calls
are unrestricted. -/
def goodEvent (tn : TokenNetwork) : Event → Prop
  | .opened cid p1 p2 _ =>
    p1 ≠ p2 ∧
    alookup tn.channel_id_to_addresses cid = none ∧
    tn.G.getEdge p1 p2 = none ∧
    tn.G.getEdge p2 p1 = none
  | _ => True

/-- States reachable from a fresh token network by handler calls that return
normally and whose open events obey `goodEvent`. -/
inductive ReachGood (start : TokenNetwork) : TokenNetwork → Prop
  | refl : ReachGood start start
  | step (tn tn' : TokenNetwork) (e : Event) :
      ReachGood start tn → goodEvent tn e → applyEvent tn e = .ok tn' →
      ReachGood start tn'

/-! ## Frame lemmas: the search only touches `weight` attributes -/

/-- The graph content that `get_paths` may not change: nodes and the edge
keys with their views (everything except `weight` attributes). -/
def stripEdges (g : Graph) : List ((Address × Address) × ChannelView) :=
  g.edges.map (fun e => (e.1, e.2.view))

/-- The view stored on edge `(u, v)`, if any. -/
def viewOf (g : Graph) (u v : Address) : Option ChannelView :=
  (g.getEdge u v).map (fun ed => ed.view)

theorem stripEdges_reweight (g : Graph) (visited : List (Nat × ℚ)) :
    stripEdges (reweightGraph g visited) = stripEdges g := by
  simp only [stripEdges, reweightGraph, List.map_map]
  rfl

theorem nodes_reweight (g : Graph) (visited : List (Nat × ℚ)) :
    (reweightGraph g visited).nodes = g.nodes := rfl

theorem viewOf_eq_alookup_strip (g : Graph) (u v : Address) :
    viewOf g u v = alookup (stripEdges g) (u, v) := by
  simp [viewOf, stripEdges, Graph.getEdge, alookup_map_val]

theorem viewOf_congr (g1 g2 : Graph) (h : stripEdges g1 = stripEdges g2) (u v : Address) :
    viewOf g1 u v = viewOf g2 u v := by
  rw [viewOf_eq_alookup_strip, viewOf_eq_alookup_strip, h]

theorem get_paths_loop_frame (source target : Address) (value : Int) (penalty : ℚ) :
    ∀ (n : Nat) (g : Graph) (visited : List (Nat × ℚ)) (paths : List (List Address))
      (g' : Graph) (out : List (List Address)),
      get_paths_loop source target value penalty n g visited paths = .ok (g', out) →
      stripEdges g' = stripEdges g ∧ g'.nodes = g.nodes := by
  intro n
  induction n with
  | zero =>
    intro g visited paths g' out h
    simp only [get_paths_loop] at h
    cases h
    exact ⟨rfl, rfl⟩
  | succ n ih =>
    intro g visited paths g' out h
    simp only [get_paths_loop] at h
    split at h
    · cases h
    · split at h
      · cases h
      · cases h
        exact ⟨stripEdges_reweight g visited, rfl⟩
      · rename_i p heq
        have := ih (reweightGraph g visited)
          (updateVisited (reweightGraph g visited) penalty visited p) (paths ++ [p]) g' out h
        exact ⟨this.1.trans (stripEdges_reweight g visited),
          this.2.trans (nodes_reweight g visited)⟩

/-! ## Feasibility of accepted paths -/

/-- A channel view admissible for routing `value`: enough capacity and an
adequate settle-to-reveal margin. -/
def edgeFeasible (value : Int) (cv : ChannelView) : Prop :=
  value ≤ cv.capacity ∧ cv.reveal_timeout ≠ 0 ∧
    MIN_SETTLE_TO_REVEAL ≤ (cv.settle_timeout : ℚ) / (cv.reveal_timeout : ℚ)

/-- Every consecutive pair of `p` has a live edge in `g` whose view is
admissible for `value`. -/
def pathFeasible (g : Graph) (value : Int) (p : List Address) : Prop :=
  ∀ uv ∈ pairs p, ∃ cv, viewOf g uv.1 uv.2 = some cv ∧ edgeFeasible value cv

theorem pairs_cons (u v : α) (rest : List α) :
    pairs (u :: v :: rest) = (u, v) :: pairs (v :: rest) := rfl

theorem pathFeasible_congr (g1 g2 : Graph) (value : Int) (p : List Address)
    (h : stripEdges g1 = stripEdges g2) (hp : pathFeasible g1 value p) :
    pathFeasible g2 value p := by
  intro uv huv
  obtain ⟨cv, hcv, hfeas⟩ := hp uv huv
  exact ⟨cv, (viewOf_congr g2 g1 (h.symm) uv.1 uv.2).trans hcv, hfeas⟩

theorem check_true_feasible (g : Graph) (value : Int) :
    ∀ p : List Address, check_path_constraints g value p = .ok true →
      pathFeasible g value p := by
  intro p
  induction p with
  | nil => intro _ uv huv; simp [pairs] at huv
  | cons u rest ih =>
    cases rest with
    | nil => intro _ uv huv; simp [pairs] at huv
    | cons v rest2 =>
      intro h
      simp only [check_path_constraints] at h
      split at h
      · cases h
      · rename_i ed hE
        split at h
        · cases h
        · rename_i hcap
          split at h
          · cases h
          · rename_i hzero
            split at h
            · cases h
            · rename_i hr
              intro uv huv
              rw [pairs_cons] at huv
              rcases List.mem_cons.mp huv with huv | huv
              · subst huv
                refine ⟨ed.view, ?_, le_of_not_gt hcap, hzero, ?_⟩
                · simp [viewOf, hE]
                · rw [← Rat.divInt_eq_div]
                  exact le_of_not_lt hr
              · exact ih h uv huv

theorem selectPath_some (g : Graph) (value : Int) (accepted : List (List Address)) :
    ∀ cands p, selectPath g value accepted cands = .ok (some p) →
      check_path_constraints g value p = .ok true ∧ ¬ p ∈ accepted := by
  intro cands
  induction cands with
  | nil => intro p h; cases h
  | cons c rest ih =>
    intro p h
    simp only [selectPath] at h
    split at h
    · cases h
    · rename_i passed h1
      split at h
      · rename_i hpass
        split at h
        · exact ih p h
        · rename_i hmem
          cases h
          rw [hpass] at h1
          exact ⟨h1, hmem⟩
      · rename_i hpass
        exact ih p h

theorem get_paths_loop_feasible (source target : Address) (value : Int) (penalty : ℚ) :
    ∀ (n : Nat) (g : Graph) (visited : List (Nat × ℚ)) (paths : List (List Address))
      (g' : Graph) (out : List (List Address)),
      get_paths_loop source target value penalty n g visited paths = .ok (g', out) →
      (∀ p ∈ paths, pathFeasible g value p) →
      ∀ p ∈ out, pathFeasible g' value p := by
  intro n
  induction n with
  | zero =>
    intro g visited paths g' out h hpre
    simp only [get_paths_loop] at h
    cases h
    exact hpre
  | succ n ih =>
    intro g visited paths g' out h hpre
    simp only [get_paths_loop] at h
    split at h
    · cases h
    · split at h
      · cases h
      · cases h
        intro p hp
        exact pathFeasible_congr g (reweightGraph g visited) value p
          (stripEdges_reweight g visited).symm (hpre p hp)
      · rename_i p heq
        refine ih (reweightGraph g visited)
          (updateVisited (reweightGraph g visited) penalty visited p) (paths ++ [p]) g' out h ?_
        intro q hq
        rcases List.mem_append.mp hq with hq | hq
        · exact pathFeasible_congr g (reweightGraph g visited) value q
            (stripEdges_reweight g visited).symm (hpre q hq)
        · rw [List.mem_singleton.mp hq]
          exact check_true_feasible (reweightGraph g visited) value p
            (selectPath_some (reweightGraph g visited) value paths _ p heq).1

theorem get_paths_loop_nodup (source target : Address) (value : Int) (penalty : ℚ) :
    ∀ (n : Nat) (g : Graph) (visited : List (Nat × ℚ)) (paths : List (List Address))
      (g' : Graph) (out : List (List Address)),
      get_paths_loop source target value penalty n g visited paths = .ok (g', out) →
      paths.Nodup → out.Nodup := by
  intro n
  induction n with
  | zero =>
    intro g visited paths g' out h hpre
    simp only [get_paths_loop] at h
    cases h
    exact hpre
  | succ n ih =>
    intro g visited paths g' out h hpre
    simp only [get_paths_loop] at h
    split at h
    · cases h
    · split at h
      · cases h
      · cases h
        exact hpre
      · rename_i p heq
        refine ih (reweightGraph g visited)
          (updateVisited (reweightGraph g visited) penalty visited p) (paths ++ [p]) g' out h ?_
        have hnot := (selectPath_some (reweightGraph g visited) value paths _ p heq).2
        simpa [List.nodup_append, hpre] using hnot

theorem get_paths_loop_length (source target : Address) (value : Int) (penalty : ℚ) :
    ∀ (n : Nat) (g : Graph) (visited : List (Nat × ℚ)) (paths : List (List Address))
      (g' : Graph) (out : List (List Address)),
      get_paths_loop source target value penalty n g visited paths = .ok (g', out) →
      out.length ≤ n + paths.length := by
  intro n
  induction n with
  | zero =>
    intro g visited paths g' out h
    simp only [get_paths_loop] at h
    cases h
    omega
  | succ n ih =>
    intro g visited paths g' out h
    simp only [get_paths_loop] at h
    split at h
    · cases h
    · split at h
      · cases h
      · cases h
        omega
      · rename_i p heq
        have := ih (reweightGraph g visited)
          (updateVisited (reweightGraph g visited) penalty visited p) (paths ++ [p]) g' out h
        simp only [List.length_append, List.length_singleton] at this
        omega

/-! ## Accounting of diversity penalties -/

/-- The channel identifiers of the edges a path traverses, in path order
(identifiers of missing edges are skipped; for paths produced by the
enumeration every edge exists). -/
def pathChannels (g : Graph) (p : List Address) : List Nat :=
  (pairs p).filterMap (fun uv => (alookup g.edges uv).map (fun ed => ed.view.channel_id))

theorem pathChannels_cons (g : Graph) (u v : Address) (rest : List Address) :
    pathChannels g (u :: v :: rest) =
      (match g.getEdge u v with
        | some ed => ed.view.channel_id :: pathChannels g (v :: rest)
        | none => pathChannels g (v :: rest)) := by
  simp only [pathChannels, pairs_cons, List.filterMap_cons, Graph.getEdge]
  cases alookup g.edges (u, v) <;> simp

theorem updateVisited_getD (g : Graph) (penalty : ℚ) :
    ∀ (p : List Address) (visited : List (Nat × ℚ)) (cid : Nat),
      (alookup (updateVisited g penalty visited p) cid).getD 0 =
        (alookup visited cid).getD 0 + penalty * ((pathChannels g p).count cid : ℚ) := by
  intro p
  induction p with
  | nil => intro visited cid; simp [updateVisited, pathChannels, pairs]
  | cons u rest ih =>
    cases rest with
    | nil => intro visited cid; simp [updateVisited, pathChannels, pairs]
    | cons v rest2 =>
      intro visited cid
      simp only [updateVisited, pathChannels_cons]
      cases hE : g.getEdge u v with
      | none =>
        simp only [Graph.getEdge] at hE
        simp only [hE]
        exact ih visited cid
      | some ed =>
        simp only [Graph.getEdge] at hE
        simp only [hE]
        rw [ih]
        rw [alookup_aupsert]
        by_cases hc : cid = ed.view.channel_id
        · subst hc
          simp [List.count_cons]
          ring
        · rw [if_neg hc]
          have : ¬ (ed.view.channel_id = cid) := fun hh => hc hh.symm
          simp [List.count_cons, this]

theorem alookup_reweight (g : Graph) (visited : List (Nat × ℚ)) (k : Address × Address) :
    alookup (reweightGraph g visited).edges k =
      (alookup g.edges k).map (fun e => { e with weight := some (edge_weight visited e) }) := by
  obtain ⟨ns, es⟩ := g
  simp only [reweightGraph]
  induction es with
  | nil => simp [alookup]
  | cons hd tl ih =>
    obtain ⟨a, b⟩ := hd
    by_cases hak : a = k <;> simp_all [alookup, hak]

theorem reweight_weight_eq (g : Graph) (visited : List (Nat × ℚ)) (u v : Address)
    (ed : EdgeData) (h : (reweightGraph g visited).getEdge u v = some ed) :
    ed.weight = some (1 + ((alookup visited ed.view.channel_id).getD 0)) := by
  simp only [Graph.getEdge] at h
  rw [alookup_reweight] at h
  cases h0 : alookup g.edges (u, v) with
  | none => rw [h0] at h; cases h
  | some ed0 =>
    rw [h0] at h
    simp only [Option.map] at h
    cases h
    rfl

/-! ## The two-edges-per-live-channel invariant -/

theorem edges_addNode (g : Graph) (a : Address) : (g.addNode a).edges = g.edges := by
  unfold Graph.addNode
  split <;> rfl

theorem getEdge_setEdgeData (g : Graph) (u v : Address) (ed : EdgeData) (u' v' : Address) :
    (g.setEdgeData u v ed).getEdge u' v' =
      if (u', v') = (u, v) then some ed else g.getEdge u' v' := by
  simp [Graph.setEdgeData, Graph.getEdge, alookup_aupsert]

theorem getEdge_add_edge (g : Graph) (u v : Address) (cv : ChannelView) (u' v' : Address) :
    (g.add_edge u v cv).getEdge u' v' =
      if (u', v') = (u, v) then
        some (match g.getEdge u v with
          | some ed => { ed with view := cv }
          | none => { view := cv, weight := none })
      else g.getEdge u' v' := by
  simp only [Graph.add_edge, Graph.getEdge, alookup_aupsert, edges_addNode]

theorem update_capacity_channel_id (cv : ChannelView) (a b c d : Option Int) :
    (cv.update_capacity a b c d).channel_id = cv.channel_id := by
  cases a <;> cases b <;> cases c <;> cases d <;> rfl

/-- Every live channel identifier owns both of its directed edges. -/
def MappingOK (tn : TokenNetwork) : Prop :=
  ∀ cid p q, alookup tn.channel_id_to_addresses cid = some (p, q) →
    p ≠ q ∧
    (∃ ed, tn.G.getEdge p q = some ed ∧ ed.view.channel_id = cid) ∧
    (∃ ed, tn.G.getEdge q p = some ed ∧ ed.view.channel_id = cid)

/-- Every edge belongs, in one of the two orientations, to the live channel
its view names. -/
def EdgesOK (tn : TokenNetwork) : Prop :=
  ∀ u v ed, tn.G.getEdge u v = some ed →
    ∃ p q, alookup tn.channel_id_to_addresses ed.view.channel_id = some (p, q) ∧
      ((u, v) = (p, q) ∨ (u, v) = (q, p))

/-- The dict and adjacency key lists carry no duplicate keys. -/
def KeysOK (tn : TokenNetwork) : Prop :=
  (tn.channel_id_to_addresses.map Prod.fst).Nodup ∧ (tn.G.edges.map Prod.fst).Nodup

/-- The inductive state invariant of the channel graph. -/
def NetInv (tn : TokenNetwork) : Prop := MappingOK tn ∧ EdgesOK tn ∧ KeysOK tn

theorem Inv_init (a ta : Address) : NetInv (initTN a ta) := by
  refine ⟨?_, ?_, ?_, ?_⟩
  · intro cid p q h
    cases h
  · intro u v ed h
    cases h
  · simp [initTN]
  · simp [initTN]

theorem Inv_setEdgeData (tn : TokenNetwork) (u v : Address) (ed ed' : EdgeData)
    (hed : tn.G.getEdge u v = some ed)
    (hcid : ed'.view.channel_id = ed.view.channel_id)
    (h : NetInv tn) : NetInv { tn with G := tn.G.setEdgeData u v ed' } := by
  obtain ⟨hM, hE, hK1, hK2⟩ := h
  refine ⟨?_, ?_, hK1, ?_⟩
  · intro cid p q hpq
    obtain ⟨hne, ⟨ed1, hed1, hcid1⟩, ⟨ed2, hed2, hcid2⟩⟩ := hM cid p q hpq
    refine ⟨hne, ?_, ?_⟩
    · rw [getEdge_setEdgeData]
      by_cases hk : ((p, q) : Address × Address) = (u, v)
      · rw [if_pos hk]
        refine ⟨ed', rfl, ?_⟩
        injection hk with hk1 hk2
        subst hk1
        subst hk2
        rw [hed1] at hed
        cases hed
        rw [hcid, hcid1]
      · rw [if_neg hk]
        exact ⟨ed1, hed1, hcid1⟩
    · rw [getEdge_setEdgeData]
      by_cases hk : ((q, p) : Address × Address) = (u, v)
      · rw [if_pos hk]
        refine ⟨ed', rfl, ?_⟩
        injection hk with hk1 hk2
        subst hk1
        subst hk2
        rw [hed2] at hed
        cases hed
        rw [hcid, hcid2]
      · rw [if_neg hk]
        exact ⟨ed2, hed2, hcid2⟩
  · intro u' v' e he
    rw [getEdge_setEdgeData] at he
    by_cases hk : ((u', v') : Address × Address) = (u, v)
    · rw [if_pos hk] at he
      cases he
      obtain ⟨p, q, hpq, hor⟩ := hE u v ed hed
      rw [hcid]
      refine ⟨p, q, hpq, ?_⟩
      rw [hk]
      exact hor
    · rw [if_neg hk] at he
      exact hE u' v' e he
  · exact nodup_keys_aupsert _ _ _ hK2

theorem Inv_deposit (tn : TokenNetwork) (cid : Nat) (r : Address) (total : Int)
    (tn' : TokenNetwork) (h : NetInv tn)
    (hok : handle_channel_new_deposit_event tn cid r total = .ok tn') : NetInv tn' := by
  unfold handle_channel_new_deposit_event at hok
  split at hok
  · cases hok
    split
    · exact h
    · split
      · split
        · exact h
        · rename_i ed hedge
          exact Inv_setEdgeData tn _ _ ed _ hedge (update_capacity_channel_id _ _ _ _ _) h
      · split
        · split
          · exact h
          · rename_i ed hedge
            exact Inv_setEdgeData tn _ _ ed _ hedge (update_capacity_channel_id _ _ _ _ _) h
        · exact h
  · cases hok

theorem edges_add_edge (g : Graph) (u v : Address) (cv : ChannelView) :
    (g.add_edge u v cv).edges = aupsert g.edges (u, v)
      (fun old => match old with
        | some ed => { ed with view := cv }
        | none => { view := cv, weight := none }) := by
  simp only [Graph.add_edge, edges_addNode]

theorem getEdge_add_edge_fresh (g : Graph) (u v : Address) (cv : ChannelView)
    (hf : g.getEdge u v = none) (u' v' : Address) :
    (g.add_edge u v cv).getEdge u' v' =
      if (u', v') = (u, v) then some { view := cv, weight := none } else g.getEdge u' v' := by
  rw [getEdge_add_edge, hf]

theorem getEdge_eraseEdge_ne (g : Graph) (u v u' v' : Address)
    (h : ((u', v') : Address × Address) ≠ (u, v)) :
    (g.eraseEdge u v).getEdge u' v' = g.getEdge u' v' :=
  alookup_aerase_ne g.edges (u, v) (u', v') h

theorem getEdge_eraseEdge_self (g : Graph) (u v : Address)
    (h : (g.edges.map Prod.fst).Nodup) : (g.eraseEdge u v).getEdge u v = none :=
  alookup_aerase_self g.edges (u, v) h

theorem Inv_opened (tn : TokenNetwork) (cid : Nat) (p1 p2 : Address) (s : Int)
    (tn' : TokenNetwork) (h : NetInv tn) (hne : p1 ≠ p2)
    (hfresh : alookup tn.channel_id_to_addresses cid = none)
    (he1 : tn.G.getEdge p1 p2 = none) (he2 : tn.G.getEdge p2 p1 = none)
    (hok : handle_channel_opened_event tn cid p1 p2 s = .ok tn') : NetInv tn' := by
  obtain ⟨hM, hE, hK1, hK2⟩ := h
  have h12 : ((p1, p2) : Address × Address) ≠ (p2, p1) := by
    intro hcon
    injection hcon with ha hb
    exact hne ha
  have h21 : ((p2, p1) : Address × Address) ≠ (p1, p2) := fun hcon => h12 hcon.symm
  have hg1f : (tn.G.add_edge p1 p2 (initView cid p1 p2 s)).getEdge p2 p1 = none := by
    rw [getEdge_add_edge_fresh tn.G p1 p2 _ he1, if_neg h21]
    exact he2
  have hG : ∀ u' v' : Address,
      ((tn.G.add_edge p1 p2 (initView cid p1 p2 s)).add_edge p2 p1
        (initView cid p1 p2 s)).getEdge u' v' =
      if (u', v') = (p2, p1) then some { view := initView cid p1 p2 s, weight := none }
      else if (u', v') = (p1, p2) then some { view := initView cid p1 p2 s, weight := none }
      else tn.G.getEdge u' v' := by
    intro u' v'
    rw [getEdge_add_edge_fresh _ _ _ _ hg1f, getEdge_add_edge_fresh tn.G p1 p2 _ he1]
  unfold handle_channel_opened_event at hok
  split at hok
  · split at hok
    · cases hok
      refine ⟨?_, ?_, ?_, ?_⟩
      · intro cid' p q hpq
        have hpq' : alookup (aupsert tn.channel_id_to_addresses cid
            (fun _ => (p1, p2))) cid' = some (p, q) := hpq
        rw [alookup_aupsert] at hpq'
        by_cases hc : cid' = cid
        · subst hc
          rw [if_pos rfl] at hpq'
          cases hpq'
          refine ⟨hne, ⟨{ view := initView cid' p1 p2 s, weight := none }, ?_, rfl⟩,
            ⟨{ view := initView cid' p1 p2 s, weight := none }, ?_, rfl⟩⟩
          · rw [hG, if_neg h12, if_pos rfl]
          · rw [hG, if_pos rfl]
        · rw [if_neg hc] at hpq'
          obtain ⟨hne', ⟨e1, hedge1, hc1⟩, ⟨e2, hedge2, hc2⟩⟩ := hM cid' p q hpq'
          have hkA : ((p, q) : Address × Address) ≠ (p1, p2) := by
            intro hcon
            injection hcon with ha hb
            subst ha
            subst hb
            rw [he1] at hedge1
            cases hedge1
          have hkB : ((p, q) : Address × Address) ≠ (p2, p1) := by
            intro hcon
            injection hcon with ha hb
            subst ha
            subst hb
            rw [he2] at hedge1
            cases hedge1
          have hkC : ((q, p) : Address × Address) ≠ (p1, p2) := by
            intro hcon
            injection hcon with ha hb
            subst ha
            subst hb
            rw [he1] at hedge2
            cases hedge2
          have hkD : ((q, p) : Address × Address) ≠ (p2, p1) := by
            intro hcon
            injection hcon with ha hb
            subst ha
            subst hb
            rw [he2] at hedge2
            cases hedge2
          refine ⟨hne', ⟨e1, ?_, hc1⟩, ⟨e2, ?_, hc2⟩⟩
          · rw [hG, if_neg hkB, if_neg hkA]
            exact hedge1
          · rw [hG, if_neg hkD, if_neg hkC]
            exact hedge2
      · intro u v e he
        rw [hG] at he
        by_cases hx : ((u, v) : Address × Address) = (p2, p1)
        · rw [if_pos hx] at he
          cases he
          refine ⟨p1, p2, ?_, Or.inr hx⟩
          simp [alookup_aupsert, initView]
        · rw [if_neg hx] at he
          by_cases hy : ((u, v) : Address × Address) = (p1, p2)
          · rw [if_pos hy] at he
            cases he
            refine ⟨p1, p2, ?_, Or.inl hy⟩
            simp [alookup_aupsert, initView]
          · rw [if_neg hy] at he
            obtain ⟨a, b, hab, hor⟩ := hE u v e he
            have hcne : e.view.channel_id ≠ cid := by
              intro hceq
              rw [hceq] at hab
              rw [hfresh] at hab
              cases hab
            refine ⟨a, b, ?_, hor⟩
            rw [alookup_aupsert, if_neg hcne]
            exact hab
      · exact nodup_keys_aupsert _ _ _ hK1
      · have hkk : ((((tn.G.add_edge p1 p2 (initView cid p1 p2 s)).add_edge p2 p1
            (initView cid p1 p2 s)).edges).map Prod.fst).Nodup := by
          rw [edges_add_edge, edges_add_edge]
          exact nodup_keys_aupsert _ _ _ (nodup_keys_aupsert _ _ _ hK2)
        exact hkk
    · cases hok
  · cases hok

theorem handle_closed_eq (tn : TokenNetwork) (cid : Nat) (p q : Address)
    (edpq edqp : EdgeData)
    (hmap : alookup tn.channel_id_to_addresses cid = some (p, q))
    (hedpq : tn.G.getEdge p q = some edpq)
    (hedqp : tn.G.getEdge q p = some edqp)
    (hne : ((q, p) : Address × Address) ≠ (p, q)) :
    handle_channel_closed_event tn cid = .ok { tn with
      channel_id_to_addresses := aerase tn.channel_id_to_addresses cid,
      G := (tn.G.eraseEdge p q).eraseEdge q p } := by
  unfold handle_channel_closed_event
  simp only [hmap]
  have h1 : ({ tn with
      channel_id_to_addresses := aerase tn.channel_id_to_addresses cid } : TokenNetwork).G.getEdge p q
      = some edpq := hedpq
  simp only [h1]
  have h2 : (({ tn with
      channel_id_to_addresses := aerase tn.channel_id_to_addresses cid } : TokenNetwork).G.eraseEdge
        p q).getEdge q p = some edqp := by
    show (tn.G.eraseEdge p q).getEdge q p = some edqp
    rw [getEdge_eraseEdge_ne tn.G p q q p hne]
    exact hedqp
  simp only [h2]

theorem Inv_closed (tn : TokenNetwork) (cid : Nat) (tn' : TokenNetwork)
    (h : NetInv tn) (hok : handle_channel_closed_event tn cid = .ok tn') : NetInv tn' := by
  obtain ⟨hM, hE, hK1, hK2⟩ := h
  cases hmap : alookup tn.channel_id_to_addresses cid with
  | none =>
    unfold handle_channel_closed_event at hok
    simp only [hmap] at hok
    cases hok
    exact ⟨hM, hE, hK1, hK2⟩
  | some pq =>
    obtain ⟨p, q⟩ := pq
    obtain ⟨hne, ⟨edpq, hedpq, hcidpq⟩, ⟨edqp, hedqp, hcidqp⟩⟩ := hM cid p q hmap
    have hqp_pq : ((q, p) : Address × Address) ≠ (p, q) := by
      intro hcon
      injection hcon with ha hb
      exact hne ha.symm
    have hpq_qp : ((p, q) : Address × Address) ≠ (q, p) := fun hcon => hqp_pq hcon.symm
    rw [handle_closed_eq tn cid p q edpq edqp hmap hedpq hedqp hqp_pq] at hok
    cases hok
    have hGpq : ((tn.G.eraseEdge p q).eraseEdge q p).getEdge p q = none := by
      rw [getEdge_eraseEdge_ne _ q p p q hpq_qp]
      exact getEdge_eraseEdge_self tn.G p q hK2
    have hGqp : ((tn.G.eraseEdge p q).eraseEdge q p).getEdge q p = none := by
      exact getEdge_eraseEdge_self (tn.G.eraseEdge p q) q p (nodup_keys_aerase _ _ hK2)
    have hGother : ∀ u v : Address, ((u, v) : Address × Address) ≠ (p, q) →
        ((u, v) : Address × Address) ≠ (q, p) →
        ((tn.G.eraseEdge p q).eraseEdge q p).getEdge u v = tn.G.getEdge u v := by
      intro u v h1 h2
      rw [getEdge_eraseEdge_ne _ q p u v h2, getEdge_eraseEdge_ne _ p q u v h1]
    refine ⟨?_, ?_, ?_, ?_⟩
    · intro cid' p' q' hpq'
      have hpq2 : alookup (aerase tn.channel_id_to_addresses cid) cid' = some (p', q') := hpq'
      have hcne : cid' ≠ cid := by
        intro hc
        subst hc
        rw [alookup_aerase_self _ _ hK1] at hpq2
        cases hpq2
      rw [alookup_aerase_ne _ _ _ hcne] at hpq2
      obtain ⟨hne', ⟨e1, hedge1, hc1⟩, ⟨e2, hedge2, hc2⟩⟩ := hM cid' p' q' hpq2
      have hkA : ((p', q') : Address × Address) ≠ (p, q) := by
        intro hcon
        injection hcon with ha hb
        subst ha
        subst hb
        rw [hedpq] at hedge1
        cases hedge1
        exact hcne (hc1.symm.trans hcidpq)
      have hkB : ((p', q') : Address × Address) ≠ (q, p) := by
        intro hcon
        injection hcon with ha hb
        subst ha
        subst hb
        rw [hedqp] at hedge1
        cases hedge1
        exact hcne (hc1.symm.trans hcidqp)
      have hkC : ((q', p') : Address × Address) ≠ (p, q) := by
        intro hcon
        injection hcon with ha hb
        subst ha
        subst hb
        rw [hedpq] at hedge2
        cases hedge2
        exact hcne (hc2.symm.trans hcidpq)
      have hkD : ((q', p') : Address × Address) ≠ (q, p) := by
        intro hcon
        injection hcon with ha hb
        subst ha
        subst hb
        rw [hedqp] at hedge2
        cases hedge2
        exact hcne (hc2.symm.trans hcidqp)
      refine ⟨hne', ⟨e1, ?_, hc1⟩, ⟨e2, ?_, hc2⟩⟩
      · rw [hGother p' q' hkA hkB]
        exact hedge1
      · rw [hGother q' p' hkC hkD]
        exact hedge2
    · intro u v e he
      have he2 : ((tn.G.eraseEdge p q).eraseEdge q p).getEdge u v = some e := he
      have hx : ((u, v) : Address × Address) ≠ (p, q) := by
        intro hcon
        injection hcon with ha hb
        subst ha
        subst hb
        rw [hGpq] at he2
        cases he2
      have hy : ((u, v) : Address × Address) ≠ (q, p) := by
        intro hcon
        injection hcon with ha hb
        subst ha
        subst hb
        rw [hGqp] at he2
        cases he2
      rw [hGother u v hx hy] at he2
      obtain ⟨a, b, hab, hor⟩ := hE u v e he2
      have hcidne : e.view.channel_id ≠ cid := by
        intro hceq
        rw [hceq] at hab
        rw [hmap] at hab
        injection hab with hab2
        injection hab2 with hpa hqb
        subst hpa
        subst hqb
        rcases hor with hor | hor
        · exact hx hor
        · exact hy hor
      refine ⟨a, b, ?_, hor⟩
      rw [alookup_aerase_ne _ _ _ hcidne]
      exact hab
    · exact nodup_keys_aerase _ _ hK1
    · exact nodup_keys_aerase _ _ (nodup_keys_aerase _ _ hK2)

theorem closed_removes (tn : TokenNetwork) (cid : Nat) (p q : Address)
    (h : NetInv tn)
    (hmap : alookup tn.channel_id_to_addresses cid = some (p, q)) :
    ∃ tn', handle_channel_closed_event tn cid = .ok tn' ∧
      alookup tn'.channel_id_to_addresses cid = none ∧
      tn'.G.getEdge p q = none ∧ tn'.G.getEdge q p = none := by
  obtain ⟨hM, hE, hK1, hK2⟩ := h
  obtain ⟨hne, ⟨edpq, hedpq, hcidpq⟩, ⟨edqp, hedqp, hcidqp⟩⟩ := hM cid p q hmap
  have hqp_pq : ((q, p) : Address × Address) ≠ (p, q) := by
    intro hcon
    injection hcon with ha hb
    exact hne ha.symm
  have hpq_qp : ((p, q) : Address × Address) ≠ (q, p) := fun hcon => hqp_pq hcon.symm
  refine ⟨_, handle_closed_eq tn cid p q edpq edqp hmap hedpq hedqp hqp_pq, ?_, ?_, ?_⟩
  · exact alookup_aerase_self _ _ hK1
  · show ((tn.G.eraseEdge p q).eraseEdge q p).getEdge p q = none
    rw [getEdge_eraseEdge_ne _ q p p q hpq_qp]
    exact getEdge_eraseEdge_self tn.G p q hK2
  · exact getEdge_eraseEdge_self (tn.G.eraseEdge p q) q p (nodup_keys_aerase _ _ hK2)

theorem Inv_balance (tn : TokenNetwork) (cid : Nat) (up other : Address)
    (un onn uc oc rt : Int) (tn' : TokenNetwork) (h : NetInv tn)
    (hok : handle_channel_balance_update_message tn cid up other un onn uc oc rt = .ok tn') :
    NetInv tn' := by
  unfold handle_channel_balance_update_message at hok
  split at hok
  · rename_i ed1 edX heq1 heqX
    dsimp only at hok
    split at hok
    · rename_i ed2 heq2
      cases hok
      have h1 : NetInv { tn with G := tn.G.setEdgeData up other { view := ed1.view.update_capacity (some un) (some uc) none (some rt), weight := ed1.weight } } :=
        Inv_setEdgeData tn up other ed1 { view := ed1.view.update_capacity (some un) (some uc) none (some rt), weight := ed1.weight } heq1 (update_capacity_channel_id _ _ _ _ _) h
      exact Inv_setEdgeData { tn with G := tn.G.setEdgeData up other { view := ed1.view.update_capacity (some un) (some uc) none (some rt), weight := ed1.weight } } other up ed2 { view := ed2.view.update_capacity (some onn) (some oc) none none, weight := ed2.weight } heq2 (update_capacity_channel_id _ _ _ _ _) h1
    · cases hok
  · cases hok

theorem Inv_step (tn tn' : TokenNetwork) (e : Event) (h : NetInv tn)
    (hg : goodEvent tn e) (hok : applyEvent tn e = .ok tn') : NetInv tn' := by
  cases e with
  | opened cid p1 p2 s =>
    obtain ⟨hne, hfresh, he1, he2⟩ := hg
    exact Inv_opened tn cid p1 p2 s tn' h hne hfresh he1 he2 hok
  | deposit cid r total => exact Inv_deposit tn cid r total tn' h hok
  | closed cid => exact Inv_closed tn cid tn' h hok
  | balance cid up other un onn uc oc rt =>
    exact Inv_balance tn cid up other un onn uc oc rt tn' h hok

theorem Inv_reach (a ta : Address) (tn : TokenNetwork)
    (h : ReachGood (initTN a ta) tn) : NetInv tn := by
  induction h with
  | refl => exact Inv_init a ta
  | step tn0 tn1 e hr hg hok ih => exact Inv_step tn0 tn1 e ih hg hok

/-! ## Concrete fixtures used by claim witnesses -/

def addrA : Address := ⟨0, true⟩

def addrB : Address := ⟨1, true⟩

def badAddr : Address := ⟨5, false⟩

def tn0ex : TokenNetwork := initTN ⟨100, true⟩ ⟨101, true⟩

/-- A view with a nonzero relative fee, enough capacity for the example
queries and an admissible timeout ratio. -/
def c1View : ChannelView :=
  { channel_id := 1, participant1 := addrA, participant2 := addrB, deposit := 100,
    capacity := 100, nonce := 0, settle_timeout := 100, reveal_timeout := 10, relative_fee := 7 }

def c1ViewRev : ChannelView := { c1View with capacity := 0, relative_fee := 0 }

/-- A token network with one channel `1` between `addrA` and `addrB`, whose
`addrA → addrB` view charges relative fee `7`. -/
def c1TN : TokenNetwork :=
  { address := ⟨100, true⟩, token_address := ⟨101, true⟩,
    channel_id_to_addresses := [(1, (addrA, addrB))],
    G := { nodes := [addrA, addrB],
           edges := [((addrA, addrB), { view := c1View, weight := none }),
                     ((addrB, addrA), { view := c1ViewRev, weight := none })] },
    max_relative_fee := 0 }

/-- `c1TN` as `get_paths c1TN addrA addrB 50 1 _ 1` leaves it: every edge
carries weight `1`, everything else unchanged. -/
def c1TNafter : TokenNetwork :=
  { c1TN with
    G := { nodes := [addrA, addrB],
           edges := [((addrA, addrB), { view := c1View, weight := some 1 }),
                     ((addrB, addrA), { view := c1ViewRev, weight := some 1 })] } }

instance [DecidableEq ε] [DecidableEq α] : DecidableEq (Except ε α) := fun a b =>
  match a, b with
  | .ok x, .ok y => decidable_of_iff (x = y) (by simp)
  | .error e, .error f => decidable_of_iff (e = f) (by simp)
  | .ok _, .error _ => .isFalse (by simp)
  | .error _, .ok _ => .isFalse (by simp)

/-! ## The claims -/

/-- C1: claimed — every result entry of `get_paths` carries an
`estimated_fee` equal to the sum of the `relative_fee` of the traversed
edges.  The code computes that sum (lines 230-232) but then writes the
constant `0` into the result (line 236): on a channel charging relative fee
`7` the only returned path `[addrA, addrB]` carries `estimated_fee = 0`
while the fee sum along it is `7`. -/
theorem C1_estimated_fee_constant_zero :
    (get_paths c1TN addrA addrB 50 1 5 1).map
      (fun r => r.2.map (fun e => (e.path, e.estimated_fee))) =
        .ok [([addrA, addrB], 0)] ∧
    path_fee_sum c1TN.G [addrA, addrB] = 7 := by
  exact ⟨by decide, by decide⟩

/-- C2: claimed — after a channel is closed (or for a channel never opened),
`get_channel_views_for_partner` fails with an explicit, surfaced
protocol-violation error.  The code performs unguarded subscripts
(lines 128-129), so the lookup raises a bare `KeyError` — an unhandled
crash, not a protocol-violation error: after opening and closing channel
`1`, and likewise on a fresh network, the call returns the `KeyError`
exception. -/
theorem C2_closed_channel_lookup_raises_keyError :
    (applyEvents tn0ex [.opened 1 addrA addrB 100, .closed 1]).map
      (fun tn => get_channel_views_for_partner tn 1 addrA addrB) =
        .ok (.error .keyError) ∧
    get_channel_views_for_partner tn0ex 2 addrA addrB = .error .keyError := by
  exact ⟨by decide, by decide⟩

/-- C3 counterexample: the claim says `get_paths` leaves the graph state —
explicitly including edge attributes — identical.  On `c1TN` (whose edges
carry no `weight` attribute) a successful query returns with every edge's
`weight` attribute set, so the graph differs from the one before the
call. -/
theorem C3_counterexample_weight_attribute_mutated :
    (get_paths c1TN addrA addrB 50 1 5 1).map (fun r => decide (r.1.G = c1TN.G)) =
      .ok false := by
  decide

/-- C3 (amended): `get_paths` never changes the nodes, the edge set, the
Channel Views or the channel-id-to-addresses mapping — the frame of the
claim holds for everything except the per-edge `weight` attribute, which
the search recomputes in place. -/
theorem C3_get_paths_frame (tn : TokenNetwork) (source target : Address)
    (value mp : Int) (pen hb : ℚ) (tn' : TokenNetwork) (res : List PathResult)
    (h : get_paths tn source target value mp pen hb = .ok (tn', res)) :
    tn'.address = tn.address ∧ tn'.token_address = tn.token_address ∧
    tn'.max_relative_fee = tn.max_relative_fee ∧
    tn'.channel_id_to_addresses = tn.channel_id_to_addresses ∧
    tn'.G.nodes = tn.G.nodes ∧ stripEdges tn'.G = stripEdges tn.G := by
  unfold get_paths at h
  split at h
  · split at h
    · cases h
    · rename_i g' paths heq
      cases h
      obtain ⟨hstrip, hnodes⟩ :=
        get_paths_loop_frame source target value pen _ tn.G [] [] g' paths heq
      exact ⟨rfl, rfl, rfl, rfl, hnodes, hstrip⟩
  · cases h

/-- Witness for C3: the amended frame property instantiated on the concrete
query of the counterexample. -/
theorem C3_get_paths_frame_witness :
    c1TNafter.address = c1TN.address ∧ c1TNafter.token_address = c1TN.token_address ∧
    c1TNafter.max_relative_fee = c1TN.max_relative_fee ∧
    c1TNafter.channel_id_to_addresses = c1TN.channel_id_to_addresses ∧
    c1TNafter.G.nodes = c1TN.G.nodes ∧ stripEdges c1TNafter.G = stripEdges c1TN.G :=
  C3_get_paths_frame c1TN addrA addrB 50 1 5 1 c1TNafter
    [{ path := [addrA, addrB], estimated_fee := 0 }] (by decide)

/-- C4 counterexample: the claim quantifies over arbitrary handler
sequences.  Opening channel `2` on the same participant pair as the live
channel `1` overwrites both edges (`DiGraph.add_edge` replaces the `view`
attribute), after which identifier `1` is still in the mapping but zero
edges — not two — carry its identifier. -/
theorem C4_counterexample_duplicate_pair_open :
    (applyEvents tn0ex [.opened 1 addrA addrB 100, .opened 2 addrA addrB 100]).map
      (fun tn => (decide (alookup tn.channel_id_to_addresses 1 = some (addrA, addrB)),
        (tn.G.edges.filter (fun e => e.2.view.channel_id == 1)).length)) =
      .ok (true, 0) := by
  decide

/-- C4 (amended): in every state reachable from a fresh token network by
handler calls whose open events each use a fresh channel identifier, two
distinct participants and a participant pair with no live edge, every
channel identifier in the mapping owns exactly two directed edges — one per
direction, both of whose views carry that identifier and no other edge does
— and closing such a channel removes the mapping entry and both edges in
the same handler call. -/
theorem C4_invariant_two_edges (a ta : Address) (tn : TokenNetwork)
    (h : ReachGood (initTN a ta) tn) :
    (∀ cid p q, alookup tn.channel_id_to_addresses cid = some (p, q) →
      p ≠ q ∧
      (∃ ed, tn.G.getEdge p q = some ed ∧ ed.view.channel_id = cid) ∧
      (∃ ed, tn.G.getEdge q p = some ed ∧ ed.view.channel_id = cid) ∧
      (∀ u v ed, tn.G.getEdge u v = some ed → ed.view.channel_id = cid →
        ((u, v) = (p, q) ∨ (u, v) = (q, p)))) ∧
    (∀ cid p q, alookup tn.channel_id_to_addresses cid = some (p, q) →
      ∃ tn', handle_channel_closed_event tn cid = .ok tn' ∧
        alookup tn'.channel_id_to_addresses cid = none ∧
        tn'.G.getEdge p q = none ∧ tn'.G.getEdge q p = none) := by
  have hInv := Inv_reach a ta tn h
  obtain ⟨hM, hE, hK1, hK2⟩ := hInv
  constructor
  · intro cid p q hpq
    obtain ⟨hne, he1, he2⟩ := hM cid p q hpq
    refine ⟨hne, he1, he2, ?_⟩
    intro u v ed hed hcid
    obtain ⟨p', q', hpq', hor⟩ := hE u v ed hed
    rw [hcid] at hpq'
    rw [hpq] at hpq'
    injection hpq' with h2
    injection h2 with ha hb
    subst ha
    subst hb
    exact hor
  · intro cid p q hpq
    exact closed_removes tn cid p q ⟨hM, hE, hK1, hK2⟩ hpq

/-- The state after one good open event from a fresh network. -/
def c4TN : TokenNetwork :=
  { tn0ex with
    channel_id_to_addresses := [(1, (addrA, addrB))],
    G := { nodes := [addrA, addrB],
           edges := [((addrA, addrB), { view := initView 1 addrA addrB 100, weight := none }),
                     ((addrB, addrA), { view := initView 1 addrA addrB 100, weight := none })] } }

/-- Witness for C4: after a single good open, channel `1` owns both of its
directed edges. -/
theorem C4_invariant_two_edges_witness :
    (∃ ed, c4TN.G.getEdge addrA addrB = some ed ∧ ed.view.channel_id = 1) ∧
    (∃ ed, c4TN.G.getEdge addrB addrA = some ed ∧ ed.view.channel_id = 1) := by
  have hreach : ReachGood (initTN ⟨100, true⟩ ⟨101, true⟩) c4TN :=
    ReachGood.step (initTN ⟨100, true⟩ ⟨101, true⟩) c4TN (.opened 1 addrA addrB 100)
      ReachGood.refl ⟨by decide, rfl, rfl, rfl⟩ (by decide)
  have hmain :=
    (C4_invariant_two_edges ⟨100, true⟩ ⟨101, true⟩ c4TN hreach).1 1 addrA addrB rfl
  exact ⟨hmain.2.1, hmain.2.2.1⟩

/-- C5: every path in a successful `get_paths` result is, edge by edge,
live in the queried graph with capacity at least the requested value and a
settle-to-reveal ratio at least the fixed minimum — the candidate filter
admits only paths accepted by `check_path_constraints`. -/
theorem C5_accepted_paths_feasible (tn : TokenNetwork) (source target : Address)
    (value mp : Int) (pen hb : ℚ) (tn' : TokenNetwork) (res : List PathResult)
    (h : get_paths tn source target value mp pen hb = .ok (tn', res)) :
    ∀ r ∈ res, ∀ uv ∈ pairs r.path, ∃ cv, viewOf tn.G uv.1 uv.2 = some cv ∧
      value ≤ cv.capacity ∧ cv.reveal_timeout ≠ 0 ∧
      MIN_SETTLE_TO_REVEAL ≤ (cv.settle_timeout : ℚ) / (cv.reveal_timeout : ℚ) := by
  unfold get_paths at h
  split at h
  · split at h
    · cases h
    · rename_i g' paths heq
      cases h
      intro r hr uv huv
      obtain ⟨p, hp, hpr⟩ := List.mem_map.mp hr
      have hfeas := get_paths_loop_feasible source target value pen _ tn.G [] [] g' paths heq
        (by intro p0 hp0; cases hp0) p hp
      obtain ⟨hstrip, _⟩ :=
        get_paths_loop_frame source target value pen _ tn.G [] [] g' paths heq
      have hfeas2 := pathFeasible_congr g' tn.G value p hstrip hfeas
      cases hpr
      exact hfeas2 uv huv
  · cases h

/-- Witness for C5: the feasibility guarantee instantiated on the concrete
query that returns `[addrA, addrB]`. -/
theorem C5_accepted_paths_feasible_witness :
    ∃ cv, viewOf c1TN.G addrA addrB = some cv ∧
      (50 : Int) ≤ cv.capacity ∧ cv.reveal_timeout ≠ 0 ∧
      MIN_SETTLE_TO_REVEAL ≤ (cv.settle_timeout : ℚ) / (cv.reveal_timeout : ℚ) :=
  C5_accepted_paths_feasible c1TN addrA addrB 50 1 5 1 c1TNafter
    [{ path := [addrA, addrB], estimated_fee := 0 }] (by decide)
    { path := [addrA, addrB], estimated_fee := 0 } (by decide) (addrA, addrB) (by decide)

/-- C6: before each search iteration every edge's weight is recomputed to
`1` plus the accumulated diversity penalty of its channel identifier (`0`
when the channel is unvisited), and accepting a path adds the penalty to
every channel identifier its edges traverse — `reweightGraph` and
`updateVisited` are exactly the two passes the `get_paths` loop performs
each iteration. -/
theorem C6_reweight_and_penalty (g : Graph) (visited : List (Nat × ℚ)) (pen : ℚ) :
    (∀ (u v : Address) (ed : EdgeData), (reweightGraph g visited).getEdge u v = some ed →
      ed.weight = some (1 + ((alookup visited ed.view.channel_id).getD 0))) ∧
    (∀ (p : List Address) (cid : Nat),
      (alookup (updateVisited g pen visited p) cid).getD 0 =
        (alookup visited cid).getD 0 + pen * (((pathChannels g p).count cid : ℚ))) := by
  constructor
  · intro u v ed hed
    exact reweight_weight_eq g visited u v ed hed
  · intro p cid
    exact updateVisited_getD g pen p visited cid

/-- Witness for C6: the weight and penalty accounting instantiated on the
concrete channel graph. -/
theorem C6_reweight_and_penalty_witness :
    (({ view := c1View, weight := some 1 } : EdgeData).weight =
      some (1 + ((alookup ([] : List (Nat × ℚ)) ({ view := c1View, weight := some 1 } : EdgeData).view.channel_id).getD 0))) ∧
    (alookup (updateVisited c1TN.G 5 [] [addrA, addrB]) 1).getD 0 =
      (alookup ([] : List (Nat × ℚ)) 1).getD 0 + 5 * (((pathChannels c1TN.G [addrA, addrB]).count 1 : ℚ)) :=
  ⟨(C6_reweight_and_penalty c1TN.G [] 5).1 addrA addrB { view := c1View, weight := some 1 } (by decide),
   (C6_reweight_and_penalty c1TN.G [] 5).2 [addrA, addrB] 1⟩

/-- C7: no two paths of one `get_paths` result are the same node sequence —
the candidate filter skips paths already accepted. -/
theorem C7_result_paths_distinct (tn : TokenNetwork) (source target : Address)
    (value mp : Int) (pen hb : ℚ) (tn' : TokenNetwork) (res : List PathResult)
    (h : get_paths tn source target value mp pen hb = .ok (tn', res)) :
    (res.map (fun r => r.path)).Nodup := by
  unfold get_paths at h
  split at h
  · split at h
    · cases h
    · rename_i g' paths heq
      cases h
      have hnd := get_paths_loop_nodup source target value pen _ tn.G [] [] g' paths heq
        List.nodup_nil
      rw [List.map_map]
      have hcomp : ((fun r : PathResult => r.path) ∘
          (fun p => ({ path := p, estimated_fee := 0 } : PathResult))) = fun p => p := rfl
      rw [hcomp]
      simpa using hnd
  · cases h

/-- Witness for C7: distinctness instantiated on the concrete query. -/
theorem C7_result_paths_distinct_witness :
    (([{ path := [addrA, addrB], estimated_fee := 0 }] : List PathResult).map
      (fun r => r.path)).Nodup :=
  C7_result_paths_distinct c1TN addrA addrB 50 1 5 1 c1TNafter
    [{ path := [addrA, addrB], estimated_fee := 0 }] (by decide)

/-- C8 counterexample: the claim allows any receiver that matches neither
participant, but a receiver that fails the checksum test trips the `assert`
on line 83 before the lookup, so the handler raises instead of returning
normally — here with a channel identifier that is not in the mapping. -/
theorem C8_counterexample_malformed_receiver_raises :
    handle_channel_new_deposit_event tn0ex 1 badAddr 10 = .error .assertionError ∧
    alookup tn0ex.channel_id_to_addresses 1 = none := by
  exact ⟨by decide, by decide⟩

/-- C8 (amended): for a checksum-valid receiver, a deposit event whose
channel identifier is unknown, or whose receiver matches neither of the
channel's participants, is logged and dropped: the handler returns `ok`
with the state completely unchanged and raises nothing. -/
theorem C8_deposit_unknown_or_mismatched_dropped (tn : TokenNetwork) (cid : Nat)
    (receiver : Address) (total : Int)
    (hck : is_checksum_address receiver = true)
    (hmis : ∀ p q, alookup tn.channel_id_to_addresses cid = some (p, q) →
      receiver ≠ p ∧ receiver ≠ q) :
    handle_channel_new_deposit_event tn cid receiver total = .ok tn := by
  unfold handle_channel_new_deposit_event
  rw [if_pos hck]
  cases hmap : alookup tn.channel_id_to_addresses cid with
  | none => simp only [hmap]
  | some pq =>
    obtain ⟨p, q⟩ := pq
    obtain ⟨h1, h2⟩ := hmis p q hmap
    simp only [hmap, if_neg h1, if_neg h2]

/-- Witness for C8: an unknown channel identifier with a checksum-valid
receiver is dropped without touching the fresh network. -/
theorem C8_deposit_dropped_witness :
    handle_channel_new_deposit_event tn0ex 1 addrA 10 = .ok tn0ex :=
  C8_deposit_unknown_or_mismatched_dropped tn0ex 1 addrA 10 (by decide)
    (fun p q hc => by cases hc)

/-- C9: a successful `get_paths` returns at most
`min max_paths MAX_PATHS_PER_REQUEST` paths, and whenever the candidate
selection of an iteration exhausts the enumeration without an acceptable
path, the loop stops and returns the paths collected so far normally
(`StopIteration` is caught), never an error. -/
theorem C9_clamp_and_graceful_exhaustion :
    (∀ (tn : TokenNetwork) (source target : Address) (value mp : Int) (pen hb : ℚ)
      (tn' : TokenNetwork) (res : List PathResult),
      get_paths tn source target value mp pen hb = .ok (tn', res) →
      res.length ≤ (min mp MAX_PATHS_PER_REQUEST).toNat) ∧
    (∀ (source target : Address) (value : Int) (pen : ℚ) (n : Nat) (g : Graph)
      (visited : List (Nat × ℚ)) (paths cands : List (List Address)),
      shortest_simple_paths (reweightGraph g visited) source target = .ok cands →
      selectPath (reweightGraph g visited) value paths cands = .ok none →
      get_paths_loop source target value pen (n + 1) g visited paths =
        .ok (reweightGraph g visited, paths)) := by
  constructor
  · intro tn source target value mp pen hb tn' res h
    unfold get_paths at h
    split at h
    · split at h
      · cases h
      · rename_i g' paths heq
        cases h
        have hlen := get_paths_loop_length source target value pen _ tn.G [] [] g' paths heq
        simpa using hlen
    · cases h
  · intro source target value pen n g visited paths cands h1 h2
    simp only [get_paths_loop, h1, h2]

/-- Witness for C9: the length bound on the concrete one-path query, and
graceful exhaustion on the reverse query whose only candidate lacks
capacity. -/
theorem C9_clamp_and_graceful_exhaustion_witness :
    ([({ path := [addrA, addrB], estimated_fee := 0 } : PathResult)].length ≤
      (min (1 : Int) MAX_PATHS_PER_REQUEST).toNat) ∧
    get_paths_loop addrB addrA 60 5 (0 + 1) c1TN.G [] [] =
      .ok (reweightGraph c1TN.G [], []) :=
  ⟨C9_clamp_and_graceful_exhaustion.1 c1TN addrA addrB 50 1 5 1 c1TNafter
      [{ path := [addrA, addrB], estimated_fee := 0 }] (by decide),
   C9_clamp_and_graceful_exhaustion.2 addrB addrA 60 5 0 c1TN.G [] []
      [[addrB, addrA]] (by decide) (by decide)⟩

/-- C10 counterexample: the claim asserts every query with an absent source
or target node propagates an exception, but with `max_paths = 0` the loop
body never runs, so `get_paths` returns an empty result list normally even
though the source is not a node of the graph. -/
theorem C10_counterexample_zero_max_paths :
    get_paths tn0ex addrA addrB 10 0 5 1 = .ok (tn0ex, []) ∧
    ¬ addrA ∈ tn0ex.G.nodes := by
  exact ⟨by decide, by decide⟩

/-- C10 (amended): whenever `max_paths ≥ 1` and the source or the target is
not a node of the graph, `get_paths` propagates an exception to the caller
instead of returning a result list (the node-not-found error of the
enumeration, or the assertion failure when `hop_bias ≠ 1`); only
`StopIteration` is handled internally. -/
theorem C10_missing_node_raises (tn : TokenNetwork) (source target : Address)
    (value mp : Int) (pen hb : ℚ)
    (hnode : ¬ source ∈ tn.G.nodes ∨ ¬ target ∈ tn.G.nodes)
    (hmp : 1 ≤ mp) :
    ∃ e, get_paths tn source target value mp pen hb = .error e := by
  unfold get_paths
  by_cases hhb : hb = 1
  · rw [if_pos hhb]
    have hmin : 1 ≤ min mp MAX_PATHS_PER_REQUEST := by
      refine le_min hmp ?_
      unfold MAX_PATHS_PER_REQUEST
      omega
    have hfuel : ∃ n, (min mp MAX_PATHS_PER_REQUEST).toNat = n + 1 := by
      refine ⟨(min mp MAX_PATHS_PER_REQUEST).toNat - 1, ?_⟩
      omega
    obtain ⟨n, hn⟩ := hfuel
    rw [hn]
    have hsp : shortest_simple_paths (reweightGraph tn.G []) source target =
        .error .nodeNotFound := by
      unfold shortest_simple_paths
      rcases hnode with hs | ht
      · have hs' : ¬ source ∈ (reweightGraph tn.G []).nodes := hs
        rw [if_neg hs']
      · by_cases hsrc : source ∈ (reweightGraph tn.G []).nodes
        · have ht' : ¬ target ∈ (reweightGraph tn.G []).nodes := ht
          rw [if_pos hsrc, if_neg ht']
        · rw [if_neg hsrc]
    exact ⟨.nodeNotFound, by simp only [get_paths_loop, hsp]⟩
  · exact ⟨.assertionError, by rw [if_neg hhb]⟩

/-- Witness for C10: a query from a node-less fresh network with
`max_paths = 3` raises. -/
theorem C10_missing_node_raises_witness :
    ∃ e, get_paths tn0ex addrA addrB 10 3 5 1 = .error e :=
  C10_missing_node_raises tn0ex addrA addrB 10 3 5 1 (Or.inl (by decide)) (by norm_num)
